import Mathlib

/-!
Verification development for the Maharashtrian story generator
(story_generator.py).  Python strings are modelled as lists of
characters; the relevant fragments of the Python standard library
(str.strip, str.split, textwrap.dedent, str.rfind) are embedded as
executable Lean functions, and the repository functions
(StoryConfig.validate, build_prompt, build_chapter_prompt,
build_translation_prompt, _split_story_into_chunks,
translate_story_in_chunks, generate_story_in_chapters,
should_chunk_story, and the fallback logic of main) are translated on
top of them.  The whitespace predicate models the ASCII whitespace
characters; the claims under study are insensitive to the extra
Unicode whitespace code points accepted by Python.
-/

/-- Python strings, modelled as lists of characters. -/
abbrev Str := List Char

/-- Model of the Python str.isspace character test and of the character
set removed by str.strip, restricted to ASCII whitespace. -/
def pyIsSpace (c : Char) : Bool :=
  c == ' ' || c == '\t' || c == '\n' || c == '\r' || c == '\x0b' || c == '\x0c'

/-- Character class of the regular expression [ \t] used by
textwrap.dedent. -/
def isSpaceTab (c : Char) : Bool :=
  c == ' ' || c == '\t'

/-- Leading-whitespace removal, first half of Python str.strip. -/
def trimLeft (s : Str) : Str := s.dropWhile pyIsSpace

/-- Trailing-whitespace removal, second half of Python str.strip. -/
def trimRight (s : Str) : Str := (s.reverse.dropWhile pyIsSpace).reverse

/-- Model of Python str.strip with no argument. -/
def pyStrip (s : Str) : Str := trimRight (trimLeft s)

/-- Model of Python text.split of a string on the newline character:
always returns at least one piece, and empty pieces are kept. -/
def splitNl : Str → List Str
  | [] => [[]]
  | c :: rest =>
    match splitNl rest with
    | [] => [[c]]
    | l :: ls => if c = '\n' then [] :: l :: ls else (c :: l) :: ls

/-- Joining lines with a newline separator. -/
def joinNl (ls : List Str) : Str := List.intercalate ['\n'] ls

/-- Joining pieces with a blank line, Python separator of two newline
characters. -/
def joinBlank (ls : List Str) : Str := List.intercalate ['\n', '\n'] ls

/-- Model of the Python slice s[-n:]. -/
def takeRight (n : Nat) (s : Str) : Str := s.drop (s.length - n)

/-- Longest common prefix of two strings, the combining step of the
margin computation in textwrap.dedent. -/
def lcp : Str → Str → Str
  | a :: as, b :: bs => if a = b then a :: lcp as bs else []
  | _, _ => []

/-- Normalisation step of textwrap.dedent: a nonempty line consisting
solely of spaces and tabs is replaced by an empty line. -/
def normWsLine (l : Str) : Str :=
  if l ≠ [] ∧ l.all isSpaceTab then [] else l

/-- The indent a line contributes to the dedent margin: its leading
run of spaces and tabs, provided the line has some other character. -/
def lineIndent (l : Str) : Option Str :=
  if l.any (fun c => !(isSpaceTab c)) then some (l.takeWhile isSpaceTab) else none

/-- The margin of textwrap.dedent: the longest common prefix of the
indents of all lines that carry content. -/
def marginOf (ls : List Str) : Str :=
  match ls.filterMap lineIndent with
  | [] => []
  | i :: is => is.foldl lcp i

/-- The normalised lines textwrap.dedent works on. -/
def dedentLines (t : Str) : List Str := (splitNl t).map normWsLine

/-- Model of textwrap.dedent: normalise whitespace-only lines, compute
the common margin, and remove it from the start of every line. -/
def pyDedent (t : Str) : Str :=
  let ls := dedentLines t
  let m := marginOf ls
  joinNl (ls.map (fun l => if m <+: l then l.drop m.length else l))

/-- The textwrap.dedent(template).strip() pipeline every prompt
template of the source goes through. -/
def dedentStrip (t : Str) : Str := pyStrip (pyDedent t)

/-- Decimal rendering of a Python int interpolated into an f-string. -/
def intStr (i : Int) : Str := (toString i).data

/-- Decimal rendering of a chapter number. -/
def natStr (n : Nat) : Str := (toString n).data

/-- Model of the Python expression a or b on strings: the empty string
is falsy. -/
def orEmpty (a b : Str) : Str := if a = [] then b else a

/-- The user-controlled knobs, dataclass StoryConfig of the source. -/
structure StoryConfig where
  story_description : Str
  characters : List Str
  genre : Str
  writing_style : Str
  literature_inspiration : Str
  word_length : Int
  chapters : Int
  plot_twists : List Str
  ending_type : Str

/-- Decision between single-shot and chaptered generation,
should_chunk_story of the source. -/
def should_chunk_story (cfg : StoryConfig) : Bool :=
  cfg.word_length ≥ 1400 || cfg.chapters ≥ 4

/-- A configuration with the given word length and chapter count and
fixed short nonempty text fields, used for concrete scenarios. -/
def mkCfg (wl ch : Int) : StoryConfig where
  story_description := ("d").data
  characters := [("A").data]
  genre := ("g").data
  writing_style := ("w").data
  literature_inspiration := ("l").data
  word_length := wl
  chapters := ch
  plot_twists := [("t").data]
  ending_type := ("e").data

/-- C5: should_chunk_story returns true exactly when the word length
is at least 1400 or the chapter count is at least 4; in particular it
is true at word length 1400 with 1 chapter and at word length 100 with
4 chapters, and false at word length 900 with 3 chapters. -/
theorem should_chunk_story_spec :
    (∀ cfg : StoryConfig,
      should_chunk_story cfg = true ↔ (1400 ≤ cfg.word_length ∨ 4 ≤ cfg.chapters)) ∧
    should_chunk_story (mkCfg 1400 1) = true ∧
    should_chunk_story (mkCfg 100 4) = true ∧
    should_chunk_story (mkCfg 900 3) = false := by
  refine ⟨fun cfg => ?_, by decide, by decide, by decide⟩
  simp [should_chunk_story]

/-- The character bullet list of the prompts: one dash line per
character, with a fixed fallback instruction when the list renders
empty. -/
def characterLines (cfg : StoryConfig) : Str :=
  orEmpty (joinNl (cfg.characters.map (fun c => ("- ").data ++ c)))
    (("- Introduce 1-3 fitting characters but keep them stable once named.").data)

/-- The plot twist bullet list of the prompts, with its fallback. -/
def twistLines (cfg : StoryConfig) : Str :=
  orEmpty (joinNl (cfg.plot_twists.map (fun t => ("- ").data ++ t)))
    (("- Subtle reveal tied to family legacy").data)

/-- The raw single-shot f-string template of build_prompt, before
dedent and strip. -/
def buildPromptTemplate (cfg : StoryConfig) : Str :=
  ("\n    You are an accomplished English-language storyteller deeply familiar with Maharashtrian culture.\n    Write a cohesive narrative that never contradicts previously stated facts and stays grounded in \n    authentic Maharashtrian settings, customs, food, and idioms.\n\n    Story brief:\n    - Core description: ").data ++
  cfg.story_description ++
  ("\n    - Characters to use consistently:\n    ").data ++
  characterLines cfg ++
  ("\n    - Genre: ").data ++ cfg.genre ++
  ("\n    - Writing style: ").data ++ cfg.writing_style ++
  ("\n    - Literary inspiration: ").data ++ cfg.literature_inspiration ++
  ("\n    - Target length: about ").data ++ intStr cfg.word_length ++
  (" words (±10%)\n    - Chapter count: Exactly ").data ++ intStr cfg.chapters ++
  (" chapters, each headed as \"Chapter N: <title>\"\n    - Plot twists to integrate organically:\n    ").data ++
  twistLines cfg ++
  ("\n    - Ending mood/type: ").data ++ cfg.ending_type ++
  ("\n\n    Output rules:\n    1. Deliver only the story prose broken into the requested chapters.\n    2. Keep voice, tone, and character motivations steady throughout.\n    3. Avoid bullet lists, explanations, or meta commentary.\n    4. Ensure every chapter advances the plot and reflects Maharashtrian context (places, festivals, idioms).\n    5. Close with the specified ending mood without introducing new characters in the final paragraph.\n    ").data

/-- build_prompt of the source. -/
def build_prompt (cfg : StoryConfig) : Str :=
  dedentStrip (buildPromptTemplate cfg)

/-- The placeholder used when no prior chapter text exists. -/
def noChaptersPlaceholder : Str :=
  ("No chapters have been written yet.").data

/-- The prior-context computation of build_chapter_prompt: strip the
prior text, fall back to the placeholder when it is empty, then keep
the trailing window of 2000 characters. -/
def chapterPriorContext (prior_text : Str) : Str :=
  takeRight 2000 (orEmpty (pyStrip prior_text) noChaptersPlaceholder)

/-- The raw per-chapter f-string template of build_chapter_prompt,
before dedent and strip, with the already computed context block as an
argument. -/
def chapterTemplate (cfg : StoryConfig) (chapter_number : Nat) (prior_context : Str)
    (target_words : Int) : Str :=
  ("\n    You are an accomplished English-language storyteller steeped in Maharashtrian culture.\n    Write Chapter ").data ++
  natStr chapter_number ++ (" of ").data ++ intStr cfg.chapters ++
  (" for the following story brief while preserving\n    tonal and factual consistency with earlier chapters.\n\n    Story brief:\n    - Core description: ").data ++
  cfg.story_description ++
  ("\n    - Characters to keep consistent:\n    ").data ++
  characterLines cfg ++
  ("\n    - Genre: ").data ++ cfg.genre ++
  ("\n    - Writing style: ").data ++ cfg.writing_style ++
  ("\n    - Literary inspiration: ").data ++ cfg.literature_inspiration ++
  ("\n    - Desired plot twists:\n    ").data ++
  twistLines cfg ++
  ("\n    - Ending mood/type: ").data ++ cfg.ending_type ++
  ("\n\n    Previously written chapters (keep continuity, do not repeat):\n    <context>\n    ").data ++
  prior_context ++
  ("\n    </context>\n\n    Requirements for this chapter:\n    1. Target about ").data ++
  intStr target_words ++
  (" words (±15%).\n    2. Output must start with 'Chapter ").data ++
  natStr chapter_number ++
  (": <title>'.\n    3. Advance the narrative meaningfully with Maharashtrian settings, idioms, and customs.\n    4. Do not introduce new main characters in the final chapter.\n    5. Maintain consistent motivations, relationships, and unresolved threads from earlier chapters.\n    6. Focus only on Chapter ").data ++
  natStr chapter_number ++
  ("; do not summarise past chapters or foreshadow future ones explicitly.\n    ").data

/-- build_chapter_prompt of the source. -/
def build_chapter_prompt (cfg : StoryConfig) (chapter_number : Nat) (prior_text : Str)
    (target_words : Int) : Str :=
  dedentStrip (chapterTemplate cfg chapter_number (chapterPriorContext prior_text) target_words)

/-- The continuity note of build_translation_prompt, inserted when
both chunk index and chunk count are supplied. -/
def chunkNote (chunk_index chunk_count : Option Int) : Str :=
  match chunk_index, chunk_count with
  | some i, some n =>
    ("This text is chunk ").data ++ intStr i ++ (" of ").data ++ intStr n ++
    (". Preserve continuity with prior chunks but do not repeat or summarize previous content. Do not add opening or closing remarks—just translate this chunk exactly.").data
  | _, _ => []

/-- The raw f-string template of build_translation_prompt, before
dedent and strip. -/
def translationTemplate (target_language note sanitized : Str) : Str :=
  ("\n    You are an expert literary translator. Translate the provided story chunk into ").data ++
  target_language ++
  ("\n    while preserving realism, tone, pacing, and structure. ").data ++
  note ++
  ("\n    Do not summarize, omit, or embellish any details. Keep chapter headings, paragraph breaks, and character\n    names aligned with their roles, translating them only when culturally appropriate for ").data ++
  target_language ++
  (" readers.\n\n    Output rules:\n    1. Return only the translated story text, no commentary, code fences, or explanations.\n    2. Mirror the original formatting exactly (chapter headings, blank lines, italics markers, etc.).\n    3. Maintain emotional intensity and descriptive richness without introducing new ideas.\n\n    Story chunk to translate:\n    <story>\n    ").data ++
  sanitized ++
  ("\n    </story>\n    ").data

/-- build_translation_prompt of the source: an input error when the
text strips to nothing, otherwise the dedented and stripped template. -/
def build_translation_prompt (story_text target_language : Str)
    (chunk_index chunk_count : Option Int) : Except Str Str :=
  let sanitized := pyStrip story_text
  if sanitized = [] then
    .error (("No story text supplied for translation.").data)
  else
    .ok (dedentStrip (translationTemplate target_language
      (chunkNote chunk_index chunk_count) sanitized))

/-- The list of missing required fields computed by
StoryConfig.validate: the string-typed fields, in dataclass order,
whose value strips to the empty string.  The two integer fields and
the two list fields are not string-typed and are never reported. -/
def validateMissing (cfg : StoryConfig) : List Str :=
  ([((("story_description").data), cfg.story_description),
    ((("genre").data), cfg.genre),
    ((("writing_style").data), cfg.writing_style),
    ((("literature_inspiration").data), cfg.literature_inspiration),
    ((("ending_type").data), cfg.ending_type)]).filterMap
    (fun p => if pyStrip p.2 = [] then some p.1 else none)

/-- StoryConfig.validate of the source: raises a ValueError naming the
missing fields, or returns nothing. -/
def StoryConfig.validate (cfg : StoryConfig) : Except Str Unit :=
  if validateMissing cfg = [] then .ok ()
  else .error ((("Missing required fields: ").data) ++
    List.intercalate ((", ").data) (validateMissing cfg))

/-- Python rfind of a double newline inside the window of maxc
characters at the head of rem: the highest position j with j + 2 at
most maxc holding two newline characters, if any. -/
def rfindNl2 (rem : Str) (maxc : Nat) : Option Nat :=
  ((List.range (maxc - 1)).filter
    (fun j => rem[j]? == some '\n' && rem[j + 1]? == some '\n')).getLast?

/-- Python rfind of a single newline inside the window of maxc
characters at the head of rem. -/
def rfindNl1 (rem : Str) (maxc : Nat) : Option Nat :=
  ((List.range maxc).filter (fun j => rem[j]? == some '\n')).getLast?

/-- The single-newline fallback of the cut-point search, including the
rejection of a match at the very start of the window. -/
def cutNl (maxc : Nat) (rem : Str) : Nat :=
  match rfindNl1 rem maxc with
  | some j => if j = 0 then maxc else j
  | none => maxc

/-- The cut position chosen by one iteration of the chunker loop,
relative to the current scan position: the whole remainder when it
fits, otherwise the last blank-line boundary, then the last newline,
then a hard cut at maxc. -/
def cutPoint (maxc : Nat) (rem : Str) : Nat :=
  if rem.length ≤ maxc then rem.length
  else
    match rfindNl2 rem maxc with
    | some j => if j = 0 then cutNl maxc rem else j
    | none => cutNl maxc rem

/-- One iteration of the chunker loop: the stripped piece up to the
cut, and the remainder with the whitespace after the cut skipped. -/
def chunkStep (maxc : Nat) (rem : Str) : Str × Str :=
  let cut := cutPoint maxc rem
  (pyStrip (rem.take cut), (rem.drop cut).dropWhile pyIsSpace)

/-- The chunker loop with explicit fuel.  The Python loop terminates
whenever maxc is at least 1 because every iteration advances the scan
position; the fuel of one unit per remaining character suffices, which
is proved below. -/
def chunksGo (maxc : Nat) : Nat → Str → List Str
  | 0, _ => []
  | fuel + 1, rem =>
    if rem = [] then []
    else if (chunkStep maxc rem).1 = [] then chunksGo maxc fuel (chunkStep maxc rem).2
    else (chunkStep maxc rem).1 :: chunksGo maxc fuel (chunkStep maxc rem).2

/-- The function _split_story_into_chunks of the source. -/
def split_story_into_chunks (text : Str) (maxc : Nat) : List Str :=
  chunksGo maxc (pyStrip text).length (pyStrip text)

/-- The translation loop of translate_story_in_chunks: the abstract
client is a function from chunk index, chunk count and chunk text to
the translated text.  Returns the translated pieces together with the
trace of calls made, each call recording its 1-based index, the total
count and the chunk passed. -/
def transLoop (tr : Nat → Nat → Str → Str) (total : Nat) :
    Nat → List Str → List Str × List (Nat × Nat × Str)
  | _, [] => ([], [])
  | idx, c :: cs =>
    let t := tr idx total c
    let r := transLoop tr total (idx + 1) cs
    (t :: r.1, (idx, total, c) :: r.2)

/-- translate_story_in_chunks of the source, with the trace of
translation calls made alongside the outcome. -/
def translate_story_in_chunks (tr : Nat → Nat → Str → Str) (story_text : Str)
    (maxc : Nat) : Except Str Str × List (Nat × Nat × Str) :=
  let chunks := split_story_into_chunks story_text maxc
  if chunks = [] then (.error (("No story text supplied for translation.").data), [])
  else
    let r := transLoop tr chunks.length 1 chunks
    (.ok (joinBlank r.1), r.2)

/-- The chapter loop of generate_story_in_chapters: the abstract
client responses are a function from 0-based call order to returned
text.  Returns the accumulated chapters and the trace of prompts
issued, in call order. -/
def genGo (resp : Nat → Str) (cfg : StoryConfig) (target_words : Int) :
    Nat → List Str → List Str × List Str
  | 0, acc => (acc, [])
  | n + 1, acc =>
    let prompt := build_chapter_prompt cfg (acc.length + 1) (joinBlank acc) target_words
    let text := resp acc.length
    let r := genGo resp cfg target_words n (acc ++ [pyStrip text])
    (r.1, prompt :: r.2)

/-- generate_story_in_chapters of the source: the returned story and
the trace of chapter prompts issued, in call order. -/
def generate_story_in_chapters (resp : Nat → Str) (cfg : StoryConfig) : Str × List Str :=
  let target := max 200 (Int.fdiv cfg.word_length (max 1 cfg.chapters))
  let r := genGo resp cfg target cfg.chapters.toNat []
  (joinBlank r.1, r.2)

/-- The two generation paths of main. -/
inductive GenMode
  | single
  | chaptered
deriving DecidableEq, Repr

/-- The generation dispatch and fallback of main, lines 482 to 496 of
the source: the outcomes of the single-shot attempt and of the
chaptered attempt for the same configuration are abstract inputs, and
the trace records which paths were invoked, in order. -/
def mainGenerate (chunked : Bool) (single chaptered : Except Str Str) :
    Except Str Str × List GenMode :=
  if chunked then
    match chaptered with
    | .ok s => (.ok s, [.chaptered])
    | .error e =>
      (.error ((("Failed to generate story: ").data) ++ e), [.chaptered])
  else
    match single with
    | .ok s => (.ok s, [.single])
    | .error e =>
      if (("MAX_TOKENS").data) <:+: e then
        match chaptered with
        | .ok s => (.ok s, [.single, .chaptered])
        | .error e2 =>
          (.error ((("Failed to generate story even after chunking: ").data) ++ e2),
            [.single, .chaptered])
      else (.error ((("Failed to generate story: ").data) ++ e), [.single])

/-- C4: the single-shot to chaptered fallback of main.  The six
equations cover every case of the dispatch: the chaptered path never
retries and surfaces its own failure; a successful single shot
returns; a single-shot failure whose message carries the MAX_TOKENS
truncation signature falls back exactly once to the chaptered attempt
for the same configuration, and when that also fails the surfaced
error carries the fallback error; a single-shot failure without the
signature is surfaced with no retry.  The trace facts state that each
path runs at most once and that the fallback trace occurs exactly when
the truncation signature is present on the single-shot failure. -/
theorem mainGenerate_fallback_spec :
    ∀ (s e e2 f : Str) (chunkedB : Bool) (single chaptered : Except Str Str),
      (mainGenerate true single (.ok s) = (.ok s, [GenMode.chaptered])) ∧
      (mainGenerate true single (.error e) =
        (.error ((("Failed to generate story: ").data) ++ e), [GenMode.chaptered])) ∧
      (mainGenerate false (.ok s) chaptered = (.ok s, [GenMode.single])) ∧
      ((("MAX_TOKENS").data) <:+: e →
        mainGenerate false (.error e) (.ok s) = (.ok s, [GenMode.single, GenMode.chaptered])) ∧
      ((("MAX_TOKENS").data) <:+: e →
        mainGenerate false (.error e) (.error e2) =
          (.error ((("Failed to generate story even after chunking: ").data) ++ e2),
            [GenMode.single, GenMode.chaptered])) ∧
      (¬ (("MAX_TOKENS").data) <:+: f →
        mainGenerate false (.error f) chaptered =
          (.error ((("Failed to generate story: ").data) ++ f), [GenMode.single])) ∧
      ((mainGenerate chunkedB single chaptered).2.count GenMode.chaptered ≤ 1) ∧
      ((mainGenerate chunkedB single chaptered).2.count GenMode.single ≤ 1) ∧
      ((mainGenerate chunkedB single chaptered).2 = [GenMode.single, GenMode.chaptered] ↔
        (chunkedB = false ∧ ∃ g, single = .error g ∧ (("MAX_TOKENS").data) <:+: g)) := by
  intro s e e2 f chunkedB single chaptered
  refine ⟨rfl, rfl, rfl, fun h => ?_, fun h => ?_, fun h => ?_, ?_, ?_, ?_⟩
  · simp only [mainGenerate, if_neg (Bool.false_ne_true), if_pos h]
  · simp only [mainGenerate, if_neg (Bool.false_ne_true), if_pos h]
  · simp only [mainGenerate, if_neg (Bool.false_ne_true), if_neg h]
  all_goals
    cases chunkedB <;> rcases single with g | g <;> rcases chaptered with c | c <;>
      simp only [mainGenerate] <;> split_ifs <;>
      simp_all [List.count_cons, List.count_nil]

/-- Witness for C4: a concrete single-shot failure carrying the
truncation signature falls back once and surfaces the fallback error,
and a concrete failure without the signature is surfaced directly with
no second attempt. -/
theorem mainGenerate_fallback_witness :
    mainGenerate false (.error (("quota MAX_TOKENS hit").data)) (.error (("boom").data)) =
      (.error ((("Failed to generate story even after chunking: ").data) ++ (("boom").data)),
        [GenMode.single, GenMode.chaptered]) ∧
    mainGenerate false (.error (("socket closed").data)) (.error (("boom").data)) =
      (.error ((("Failed to generate story: ").data) ++ (("socket closed").data)),
        [GenMode.single]) :=
  ⟨(mainGenerate_fallback_spec [] (("quota MAX_TOKENS hit").data) (("boom").data) []
      false (.error (("quota MAX_TOKENS hit").data)) (.error (("boom").data))).2.2.2.2.1
      (by decide),
    (mainGenerate_fallback_spec [] [] (("boom").data) (("socket closed").data)
      false (.error (("socket closed").data)) (.error (("boom").data))).2.2.2.2.2.1
      (by decide)⟩

theorem dropWhile_head_not {p : Char → Bool} :
    ∀ {l : Str} {c : Char} {t : Str}, l.dropWhile p = c :: t → p c = false := by
  intro l
  induction l with
  | nil => intro c t h; simp [List.dropWhile] at h
  | cons a l ih =>
    intro c t h
    by_cases hp : p a
    · rw [List.dropWhile_cons_of_pos hp] at h
      exact ih h
    · rw [List.dropWhile_cons_of_neg hp] at h
      cases h
      simpa using hp

theorem takeWhile_all {p : Char → Bool} (l : Str) : (l.takeWhile p).all p = true :=
  List.all_eq_true.mpr fun _ h => List.mem_takeWhile_imp h

theorem trimLeft_decomp (s : Str) :
    s = s.takeWhile pyIsSpace ++ trimLeft s ∧ (s.takeWhile pyIsSpace).all pyIsSpace :=
  ⟨(List.takeWhile_append_dropWhile pyIsSpace s).symm, takeWhile_all s⟩

theorem trimRight_decomp (s : Str) :
    ∃ b, s = trimRight s ++ b ∧ b.all pyIsSpace := by
  refine ⟨(s.reverse.takeWhile pyIsSpace).reverse, ?_, ?_⟩
  · have h := congrArg List.reverse (List.takeWhile_append_dropWhile pyIsSpace s.reverse)
    simp only [List.reverse_append, List.reverse_reverse] at h
    conv_lhs => rw [← h]
    rfl
  · simp only [List.all_eq_true]
    intro a ha
    exact List.mem_takeWhile_imp (List.mem_reverse.mp ha)

theorem pyStrip_decomp (s : Str) :
    ∃ a b, s = a ++ pyStrip s ++ b ∧ a.all pyIsSpace ∧ b.all pyIsSpace := by
  obtain ⟨b, hb, hbws⟩ := trimRight_decomp (trimLeft s)
  refine ⟨s.takeWhile pyIsSpace, b, ?_, (trimLeft_decomp s).2, hbws⟩
  conv_lhs => rw [(trimLeft_decomp s).1, hb]
  simp [pyStrip]

theorem pyStrip_length_le (s : Str) : (pyStrip s).length ≤ s.length := by
  obtain ⟨a, b, h, -, -⟩ := pyStrip_decomp s
  have := congrArg List.length h
  simp only [List.length_append] at this
  omega

theorem trimLeft_eq_self {s : Str}
    (h : s = [] ∨ ∃ c t, s = c :: t ∧ pyIsSpace c = false) : trimLeft s = s := by
  rcases h with h | ⟨c, t, rfl, hc⟩
  · simp [trimLeft, h]
  · unfold trimLeft
    rw [List.dropWhile_cons_of_neg (by simp [hc])]

theorem trimRight_eq_self {s : Str}
    (h : s.reverse = [] ∨ ∃ c t, s.reverse = c :: t ∧ pyIsSpace c = false) :
    trimRight s = s := by
  unfold trimRight
  rcases h with h | ⟨c, t, hs, hc⟩
  · have hs : s = [] := by simpa using congrArg List.reverse h
    simp [hs]
  · rw [hs, List.dropWhile_cons_of_neg (by simp [hc]), ← hs]
    simp

theorem trimRight_reverse_eq (s : Str) :
    (trimRight s).reverse = s.reverse.dropWhile pyIsSpace := by
  simp [trimRight]

theorem trimRight_prefix (s : Str) : trimRight s <+: s := by
  have h1 : (trimRight s).reverse <:+ s.reverse := by
    rw [trimRight_reverse_eq]
    exact List.dropWhile_suffix pyIsSpace
  have := List.reverse_suffix.mp h1
  simpa using this

theorem pyStrip_head_not (s : Str) {c : Char} {t : Str}
    (h : pyStrip s = c :: t) : pyIsSpace c = false := by
  have hpre : pyStrip s <+: trimLeft s := trimRight_prefix (trimLeft s)
  obtain ⟨r, hr⟩ := hpre
  rw [h] at hr
  exact @dropWhile_head_not pyIsSpace s c (t ++ r) hr.symm

theorem pyStrip_last_not (s : Str) {c : Char} {t : Str}
    (h : (pyStrip s).reverse = c :: t) : pyIsSpace c = false := by
  have heq : (pyStrip s).reverse = (trimLeft s).reverse.dropWhile pyIsSpace :=
    trimRight_reverse_eq (trimLeft s)
  rw [heq] at h
  exact dropWhile_head_not h

theorem pyStrip_idem (s : Str) : pyStrip (pyStrip s) = pyStrip s := by
  have h1 : trimLeft (pyStrip s) = pyStrip s := by
    apply trimLeft_eq_self
    cases h : pyStrip s with
    | nil => exact Or.inl rfl
    | cons c t => exact Or.inr ⟨c, t, rfl, pyStrip_head_not s h⟩
  show trimRight (trimLeft (pyStrip s)) = pyStrip s
  rw [h1]
  apply trimRight_eq_self
  cases h : (pyStrip s).reverse with
  | nil => exact Or.inl rfl
  | cons c t => exact Or.inr ⟨c, t, rfl, pyStrip_last_not s h⟩

theorem pyStrip_eq_nil_iff (s : Str) : pyStrip s = [] ↔ s.all pyIsSpace := by
  constructor
  · intro h
    obtain ⟨a, b, hd, ha, hb⟩ := pyStrip_decomp s
    rw [hd, h]
    simp only [List.nil_append, List.all_append]
    simp [ha, hb]
  · intro h
    have h1 : trimLeft s = [] := by
      unfold trimLeft
      rw [List.dropWhile_eq_nil_iff]
      intro x hx
      exact List.all_eq_true.mp h x hx
    simp [pyStrip, h1, trimRight]

/-- The pieces cs occur inside s, in order and without overlap, and
every character of s outside the pieces is whitespace.  This is the
shape of the chunker invariant: the trimmed input is an alternation of
whitespace gaps and the emitted pieces. -/
inductive Interleaves : Str → List Str → Prop
  | nil (w : Str) : w.all pyIsSpace → Interleaves w []
  | cons (w c rest : Str) (cs : List Str) : w.all pyIsSpace →
      Interleaves rest cs → Interleaves (w ++ (c ++ rest)) (c :: cs)

theorem Interleaves.prepend_ws {s : Str} {cs : List Str} (w : Str)
    (hw : w.all pyIsSpace) (h : Interleaves s cs) : Interleaves (w ++ s) cs := by
  induction h with
  | nil w2 hw2 =>
    apply Interleaves.nil
    simp only [List.all_append]
    simp [hw, hw2]
  | cons w2 c rest cs hw2 hrest ih =>
    rw [show w ++ (w2 ++ (c ++ rest)) = (w ++ w2) ++ (c ++ rest) by simp]
    apply Interleaves.cons
    · simp only [List.all_append]
      simp [hw, hw2]
    · exact hrest

theorem joinBlank_nil : joinBlank [] = [] := rfl

theorem joinBlank_single (a : Str) : joinBlank [a] = a := by
  simp [joinBlank, List.intercalate]

theorem joinBlank_cons_cons (a b : Str) (t : List Str) :
    joinBlank (a :: b :: t) = a ++ '\n' :: '\n' :: joinBlank (b :: t) := by
  simp [joinBlank, List.intercalate, List.intersperse]

theorem all_ws_filter {l : Str} (h : l.all pyIsSpace) :
    l.filter (fun c => !pyIsSpace c) = [] := by
  rw [List.filter_eq_nil_iff]
  intro a ha
  simp [List.all_eq_true.mp h a ha]

theorem interleaves_nil_inv {s : Str} (h : Interleaves s []) : s.all pyIsSpace := by
  cases h
  assumption

theorem Interleaves.filter_eq {s : Str} {cs : List Str} (h : Interleaves s cs) :
    s.filter (fun c => !pyIsSpace c) = (joinBlank cs).filter (fun c => !pyIsSpace c) := by
  induction h with
  | nil w hw =>
    rw [joinBlank_nil, all_ws_filter hw]
    rfl
  | cons w c rest cs hw hrest ih =>
    cases cs with
    | nil =>
      have hw2 : rest.all pyIsSpace = true := interleaves_nil_inv hrest
      rw [joinBlank_single]
      simp only [List.filter_append, all_ws_filter hw, all_ws_filter hw2]
      simp
    | cons c2 t =>
      rw [joinBlank_cons_cons]
      simp only [List.filter_append, all_ws_filter hw, List.nil_append] at *
      rw [ih]
      have hnl : pyIsSpace '\n' = true := by decide
      simp [List.filter_cons, hnl]

theorem rfindNl2_lt {rem : Str} {maxc j : Nat} (h : rfindNl2 rem maxc = some j) :
    j < maxc - 1 := by
  unfold rfindNl2 at h
  have hm := List.mem_of_mem_getLast? h
  exact List.mem_range.mp (List.mem_filter.mp hm).1

theorem rfindNl1_lt {rem : Str} {maxc j : Nat} (h : rfindNl1 rem maxc = some j) :
    j < maxc := by
  unfold rfindNl1 at h
  have hm := List.mem_of_mem_getLast? h
  exact List.mem_range.mp (List.mem_filter.mp hm).1

theorem cutNl_le (maxc : Nat) (rem : Str) : cutNl maxc rem ≤ maxc := by
  unfold cutNl
  cases h : rfindNl1 rem maxc with
  | none => exact le_refl maxc
  | some j =>
    by_cases hj : j = 0
    · simp [hj]
    · simp only [if_neg hj]
      exact le_of_lt (rfindNl1_lt h)

theorem cutNl_pos (maxc : Nat) (rem : Str) (h1 : 1 ≤ maxc) : 1 ≤ cutNl maxc rem := by
  unfold cutNl
  cases h : rfindNl1 rem maxc with
  | none => exact h1
  | some j =>
    by_cases hj : j = 0
    · simpa [hj] using h1
    · simp only [if_neg hj]
      omega

theorem cutPoint_pos (maxc : Nat) (rem : Str) (h1 : 1 ≤ maxc) (h2 : rem ≠ []) :
    1 ≤ cutPoint maxc rem := by
  unfold cutPoint
  by_cases hle : rem.length ≤ maxc
  · rw [if_pos hle]
    exact List.length_pos.mpr h2
  · rw [if_neg hle]
    cases h : rfindNl2 rem maxc with
    | none => exact cutNl_pos maxc rem h1
    | some j =>
      by_cases hj : j = 0
      · simp only [if_pos hj]
        exact cutNl_pos maxc rem h1
      · simp only [if_neg hj]
        omega

theorem length_take_cutPoint (maxc : Nat) (rem : Str) :
    (rem.take (cutPoint maxc rem)).length ≤ maxc := by
  rw [List.length_take]
  unfold cutPoint
  by_cases hle : rem.length ≤ maxc
  · rw [if_pos hle]
    omega
  · rw [if_neg hle]
    cases h : rfindNl2 rem maxc with
    | none =>
      show min (cutNl maxc rem) rem.length ≤ maxc
      have := cutNl_le maxc rem
      omega
    | some j =>
      by_cases hj : j = 0
      · simp only [if_pos hj]
        have := cutNl_le maxc rem
        omega
      · simp only [if_neg hj]
        have := rfindNl2_lt h
        omega

theorem chunkStep_progress (maxc : Nat) (rem : Str) (h1 : 1 ≤ maxc) (h2 : rem ≠ []) :
    (chunkStep maxc rem).2.length < rem.length := by
  have hcut := cutPoint_pos maxc rem h1 h2
  have hpos := List.length_pos.mpr h2
  have hdw : ((rem.drop (cutPoint maxc rem)).dropWhile pyIsSpace).length ≤
      (rem.drop (cutPoint maxc rem)).length :=
    (List.dropWhile_suffix pyIsSpace).length_le
  have h3 : (rem.drop (cutPoint maxc rem)).length < rem.length := by
    rw [List.length_drop]
    omega
  exact lt_of_le_of_lt hdw h3

theorem chunkStep_decomp (maxc : Nat) (rem : Str) :
    ∃ a b w, rem = a ++ ((chunkStep maxc rem).1 ++ (b ++ (w ++ (chunkStep maxc rem).2))) ∧
      a.all pyIsSpace ∧ b.all pyIsSpace ∧ w.all pyIsSpace := by
  obtain ⟨a, b, hd, ha, hb⟩ := pyStrip_decomp (rem.take (cutPoint maxc rem))
  refine ⟨a, b, (rem.drop (cutPoint maxc rem)).takeWhile pyIsSpace, ?_, ha, ?_, ?_⟩
  · conv_lhs => rw [← List.take_append_drop (cutPoint maxc rem) rem]
    rw [show (chunkStep maxc rem).1 = pyStrip (rem.take (cutPoint maxc rem)) from rfl,
      show (chunkStep maxc rem).2 =
        (rem.drop (cutPoint maxc rem)).dropWhile pyIsSpace from rfl]
    conv_lhs => rw [hd,
      ← List.takeWhile_append_dropWhile pyIsSpace (rem.drop (cutPoint maxc rem))]
    simp [List.append_assoc]
  · exact hb
  · exact takeWhile_all _

theorem chunksGo_nil (maxc fuel : Nat) : chunksGo maxc fuel [] = [] := by
  cases fuel <;> simp [chunksGo]

theorem chunksGo_spec (maxc : Nat) (h1 : 1 ≤ maxc) :
    ∀ fuel rem, rem.length ≤ fuel →
      (∀ c ∈ chunksGo maxc fuel rem, pyStrip c = c ∧ c ≠ [] ∧ c.length ≤ maxc) ∧
      Interleaves rem (chunksGo maxc fuel rem) := by
  intro fuel
  induction fuel with
  | zero =>
    intro rem hlen
    have hrem : rem = [] := List.length_eq_zero.mp (Nat.le_zero.mp hlen)
    subst hrem
    exact ⟨by simp [chunksGo], Interleaves.nil [] (by simp)⟩
  | succ fuel ih =>
    intro rem hlen
    by_cases hrem : rem = []
    · subst hrem
      exact ⟨by simp [chunksGo_nil], Interleaves.nil [] (by simp)⟩
    · have hprog := chunkStep_progress maxc rem h1 hrem
      have hlen2 : (chunkStep maxc rem).2.length ≤ fuel := by omega
      obtain ⟨hprops, hinter⟩ := ih (chunkStep maxc rem).2 hlen2
      obtain ⟨a, b, w, hdec, ha, hb, hw⟩ := chunkStep_decomp maxc rem
      by_cases hc1 : (chunkStep maxc rem).1 = []
      · have hgo : chunksGo maxc (fuel + 1) rem =
            chunksGo maxc fuel (chunkStep maxc rem).2 := by
          simp [chunksGo, hrem, hc1]
        rw [hgo]
        refine ⟨hprops, ?_⟩
        conv_lhs => rw [hdec, hc1]
        simp only [List.nil_append]
        rw [show a ++ (b ++ (w ++ (chunkStep maxc rem).2)) =
          (a ++ b ++ w) ++ (chunkStep maxc rem).2 by simp [List.append_assoc]]
        apply Interleaves.prepend_ws _ _ hinter
        simp only [List.all_append]
        simp [ha, hb, hw]
      · have hgo : chunksGo maxc (fuel + 1) rem =
            (chunkStep maxc rem).1 :: chunksGo maxc fuel (chunkStep maxc rem).2 := by
          simp [chunksGo, hrem, hc1]
        rw [hgo]
        constructor
        · intro c hc
          rcases List.mem_cons.mp hc with rfl | hc
          · refine ⟨pyStrip_idem (rem.take (cutPoint maxc rem)), hc1, ?_⟩
            calc (chunkStep maxc rem).1.length
                = (pyStrip (rem.take (cutPoint maxc rem))).length := rfl
              _ ≤ (rem.take (cutPoint maxc rem)).length := pyStrip_length_le _
              _ ≤ maxc := length_take_cutPoint maxc rem
          · exact hprops c hc
        · conv_lhs => rw [hdec]
          exact Interleaves.cons a _ _ _ ha
            (Interleaves.prepend_ws b hb (Interleaves.prepend_ws w hw hinter))

theorem chunksGo_fuel (maxc : Nat) (h1 : 1 ≤ maxc) :
    ∀ f1 f2 rem, rem.length ≤ f1 → rem.length ≤ f2 →
      chunksGo maxc f1 rem = chunksGo maxc f2 rem := by
  intro f1
  induction f1 with
  | zero =>
    intro f2 rem ha hb
    have hrem : rem = [] := List.length_eq_zero.mp (Nat.le_zero.mp ha)
    subst hrem
    rw [chunksGo_nil, chunksGo_nil]
  | succ f ih =>
    intro f2 rem ha hb
    by_cases hrem : rem = []
    · subst hrem
      rw [chunksGo_nil, chunksGo_nil]
    · have hpos : 1 ≤ rem.length := List.length_pos.mpr hrem
      cases f2 with
      | zero => omega
      | succ f2' =>
        have hprog := chunkStep_progress maxc rem h1 hrem
        have hr1 : (chunkStep maxc rem).2.length ≤ f := by omega
        have hr2 : (chunkStep maxc rem).2.length ≤ f2' := by omega
        by_cases hc1 : (chunkStep maxc rem).1 = [] <;>
          simp [chunksGo, hrem, hc1, ih f2' (chunkStep maxc rem).2 hr1 hr2]

/-- C2: for a text whose strip is nonempty and maxc at least 1, the
chunker returns trimmed nonempty pieces none of which exceeds maxc
characters; the pieces are non-overlapping substrings of the stripped
input in original order, with only whitespace between and around them
(the Interleaves predicate), so joining them with a blank line
reproduces the stripped input up to whitespace runs at the chunk
boundaries: no non-whitespace character is dropped or duplicated,
stated as equality of the whitespace-free character sequences. -/
theorem split_story_into_chunks_spec (text : Str) (maxc : Nat)
    (_h1 : pyStrip text ≠ []) (h2 : 1 ≤ maxc) :
    (∀ c ∈ split_story_into_chunks text maxc, pyStrip c = c ∧ c ≠ [] ∧ c.length ≤ maxc) ∧
    Interleaves (pyStrip text) (split_story_into_chunks text maxc) ∧
    (joinBlank (split_story_into_chunks text maxc)).filter (fun c => !pyIsSpace c) =
      (pyStrip text).filter (fun c => !pyIsSpace c) := by
  obtain ⟨hp, hi⟩ := chunksGo_spec maxc h2 (pyStrip text).length (pyStrip text) le_rfl
  exact ⟨hp, hi, hi.filter_eq.symm⟩

/-- Witness for C2 at the concrete text of two pieces split at the
blank line, with maxc 3: the first emitted piece is trimmed, nonempty
and within bound, the interleaving invariant holds, and the
whitespace-free content round-trips. -/
theorem split_story_into_chunks_witness :
    (pyStrip (("ab").data) = ("ab").data ∧ ("ab").data ≠ [] ∧ (("ab").data).length ≤ 3) ∧
    Interleaves (pyStrip (("ab\n\ncd").data)) (split_story_into_chunks (("ab\n\ncd").data) 3) ∧
    (joinBlank (split_story_into_chunks (("ab\n\ncd").data) 3)).filter
        (fun c => !pyIsSpace c) =
      (pyStrip (("ab\n\ncd").data)).filter (fun c => !pyIsSpace c) := by
  have h := split_story_into_chunks_spec (("ab\n\ncd").data) 3 (by decide) (by decide)
  exact ⟨h.1 (("ab").data) (by decide), h.2.1, h.2.2⟩

/-- C8: for maxc at least 1 the chunker scan strictly advances on
every iteration: the cut point is strictly past the current position
and the remainder after skipping trailing whitespace is strictly
shorter.  Consequently the loop terminates: the result is insensitive
to any fuel bound of at least one step per remaining character, so
split_story_into_chunks, which uses exactly that bound, computes the
limit of the Python while loop. -/
theorem chunker_termination_spec (text : Str) (maxc : Nat) (h1 : 1 ≤ maxc) :
    (∀ rem : Str, rem ≠ [] →
      1 ≤ cutPoint maxc rem ∧ (chunkStep maxc rem).2.length < rem.length) ∧
    (∀ fuel, (pyStrip text).length ≤ fuel →
      chunksGo maxc fuel (pyStrip text) = split_story_into_chunks text maxc) := by
  constructor
  · intro rem hrem
    exact ⟨cutPoint_pos maxc rem h1 hrem, chunkStep_progress maxc rem h1 hrem⟩
  · intro fuel hf
    exact chunksGo_fuel maxc h1 fuel (pyStrip text).length (pyStrip text) hf le_rfl

/-- Witness for C8: at the concrete input the scan advances and a
larger fuel bound gives the same result as the canonical one. -/
theorem chunker_termination_witness :
    (1 ≤ cutPoint 3 (("ab\n\ncd").data) ∧
      (chunkStep 3 (("ab\n\ncd").data)).2.length < (("ab\n\ncd").data).length) ∧
    chunksGo 3 50 (pyStrip (("ab\n\ncd").data)) =
      split_story_into_chunks (("ab\n\ncd").data) 3 := by
  have h := chunker_termination_spec (("ab\n\ncd").data) 3 (by decide)
  exact ⟨h.1 (("ab\n\ncd").data) (by decide), h.2 50 (by decide)⟩

theorem pyStrip_cons_ne_nil {c : Char} {t : Str} (hc : pyIsSpace c = false) :
    pyStrip (c :: t) ≠ [] := by
  intro h
  have := (pyStrip_eq_nil_iff (c :: t)).mp h
  simp only [List.all_cons, Bool.and_eq_true] at this
  rw [hc] at this
  exact Bool.false_ne_true this.1

theorem chunksGo_ne_nil (maxc : Nat) (h1 : 1 ≤ maxc) (s : Str) (c : Char) (t : Str)
    (hs : s = c :: t) (hc : pyIsSpace c = false) (fuel : Nat) (hf : 1 ≤ fuel) :
    chunksGo maxc fuel s ≠ [] := by
  subst hs
  cases fuel with
  | zero => omega
  | succ f =>
    have hne : c :: t ≠ [] := by simp
    have hcutpos := cutPoint_pos maxc (c :: t) h1 hne
    have hfirst : (chunkStep maxc (c :: t)).1 ≠ [] := by
      show pyStrip ((c :: t).take (cutPoint maxc (c :: t))) ≠ []
      obtain ⟨k, hk⟩ : ∃ k, cutPoint maxc (c :: t) = k + 1 :=
        ⟨cutPoint maxc (c :: t) - 1, by omega⟩
      rw [hk, List.take_succ_cons]
      exact pyStrip_cons_ne_nil hc
    simp [chunksGo, hne, hfirst]

theorem split_eq_nil_iff (text : Str) (maxc : Nat) (h1 : 1 ≤ maxc) :
    split_story_into_chunks text maxc = [] ↔ pyStrip text = [] := by
  constructor
  · intro h
    by_contra hne
    cases hs : pyStrip text with
    | nil => exact hne hs
    | cons c t =>
      have hc := pyStrip_head_not text hs
      have hlen : 1 ≤ (pyStrip text).length := by
        rw [hs]; simp
      exact chunksGo_ne_nil maxc h1 (pyStrip text) c t hs hc (pyStrip text).length hlen h
  · intro h
    show chunksGo maxc (pyStrip text).length (pyStrip text) = []
    rw [h]
    exact chunksGo_nil maxc 0

theorem transLoop_spec (tr : Nat → Nat → Str → Str) (total : Nat) :
    ∀ (cs : List Str) (idx : Nat),
      transLoop tr total idx cs =
        (cs.mapIdx (fun k c => tr (idx + k) total c),
          cs.mapIdx (fun k c => (idx + k, total, c))) := by
  intro cs
  induction cs with
  | nil => intro idx; simp [transLoop]
  | cons c cs ih =>
    intro idx
    have h1 : (fun k d => tr (idx + 1 + k) total d) =
        (fun k d => tr (idx + (k + 1)) total d) := by
      funext k d
      congr 1
      omega
    have h2 : (fun k (d : Str) => (idx + 1 + k, total, d)) =
        (fun k d => (idx + (k + 1), total, d)) := by
      funext k d
      have : idx + 1 + k = idx + (k + 1) := by omega
      rw [this]
    simp [transLoop, ih (idx + 1), List.mapIdx_cons, h1, h2]

/-- C3: under a positive chunk bound, translate_story_in_chunks
raises the input error exactly when the chunker yields zero chunks,
which happens exactly when the source strips to nothing; in that case
no translation call is made.  Otherwise, with chunks cs of total n, it
makes exactly n calls strictly in order, the call for the piece at
0-based position k translating that piece tagged with 1-based index
k + 1 and total n, and returns the translated results joined with a
blank line in original order. -/
theorem translate_story_in_chunks_spec (tr : Nat → Nat → Str → Str)
    (anyText wsText text : Str) (maxc : Nat) (h1 : 1 ≤ maxc)
    (hws : pyStrip wsText = []) (hne : pyStrip text ≠ []) :
    ((translate_story_in_chunks tr anyText maxc).1 =
        Except.error (("No story text supplied for translation.").data) ↔
      split_story_into_chunks anyText maxc = []) ∧
    (split_story_into_chunks anyText maxc = [] ↔ pyStrip anyText = []) ∧
    (translate_story_in_chunks tr wsText maxc =
      (Except.error (("No story text supplied for translation.").data), [])) ∧
    ((translate_story_in_chunks tr text maxc).1 =
      Except.ok (joinBlank ((split_story_into_chunks text maxc).mapIdx
        (fun k c => tr (k + 1) (split_story_into_chunks text maxc).length c)))) ∧
    ((translate_story_in_chunks tr text maxc).2 =
      (split_story_into_chunks text maxc).mapIdx
        (fun k c => (k + 1, (split_story_into_chunks text maxc).length, c))) := by
  have hmain : ∀ (u : Str), split_story_into_chunks u maxc ≠ [] →
      translate_story_in_chunks tr u maxc =
        (Except.ok (joinBlank ((split_story_into_chunks u maxc).mapIdx
          (fun k c => tr (k + 1) (split_story_into_chunks u maxc).length c))),
         (split_story_into_chunks u maxc).mapIdx
          (fun k c => (k + 1, (split_story_into_chunks u maxc).length, c))) := by
    intro u hu
    have hadd : ∀ k : Nat, 1 + k = k + 1 := fun k => Nat.add_comm 1 k
    have e1 : (fun k c => tr (1 + k) (split_story_into_chunks u maxc).length c) =
        (fun k c => tr (k + 1) (split_story_into_chunks u maxc).length c) := by
      funext k c
      rw [hadd k]
    have e2 : (fun k (c : Str) => (1 + k, (split_story_into_chunks u maxc).length, c)) =
        (fun k c => (k + 1, (split_story_into_chunks u maxc).length, c)) := by
      funext k c
      rw [hadd k]
    unfold translate_story_in_chunks
    rw [if_neg hu, transLoop_spec tr (split_story_into_chunks u maxc).length
      (split_story_into_chunks u maxc) 1, e1, e2]
  refine ⟨?_, split_eq_nil_iff anyText maxc h1, ?_, ?_, ?_⟩
  · by_cases hsp : split_story_into_chunks anyText maxc = []
    · constructor
      · intro _; exact hsp
      · intro _
        unfold translate_story_in_chunks
        rw [if_pos hsp]
    · rw [hmain anyText hsp]
      constructor
      · intro h; exact absurd h (by simp)
      · intro h; exact absurd h hsp
  · have hsp : split_story_into_chunks wsText maxc = [] :=
      (split_eq_nil_iff wsText maxc h1).mpr hws
    unfold translate_story_in_chunks
    rw [if_pos hsp]
  · rw [hmain text (fun h => hne ((split_eq_nil_iff text maxc h1).mp h))]
  · rw [hmain text (fun h => hne ((split_eq_nil_iff text maxc h1).mp h))]

/-- Witness for C3: a whitespace-only source is rejected with no call
made, and the concrete two-chunk source produces two calls tagged 1 of
2 and 2 of 2 in order, whose results are joined with a blank line. -/
theorem translate_story_in_chunks_witness :
    (translate_story_in_chunks (fun i n c => natStr i ++ natStr n ++ c) ((" \n ").data) 3 =
      (Except.error (("No story text supplied for translation.").data), [])) ∧
    (translate_story_in_chunks (fun i n c => natStr i ++ natStr n ++ c)
        (("ab\n\ncd").data) 3).2 =
      [(1, 2, ("ab").data), (2, 2, ("cd").data)] ∧
    (translate_story_in_chunks (fun i n c => natStr i ++ natStr n ++ c)
        (("ab\n\ncd").data) 3).1 =
      Except.ok (("12ab\n\n22cd").data) := by
  have h := translate_story_in_chunks_spec (fun i n c => natStr i ++ natStr n ++ c)
    (("x").data) ((" \n ").data) (("ab\n\ncd").data) 3 (by decide) (by decide) (by decide)
  refine ⟨h.2.2.1, ?_, ?_⟩
  · rw [h.2.2.2.2]
    decide
  · rw [h.2.2.2.1]
    congr 1

theorem joinNl_single (a : Str) : joinNl [a] = a := by
  simp [joinNl, List.intercalate]

theorem joinNl_cons_cons (a b : Str) (t : List Str) :
    joinNl (a :: b :: t) = a ++ '\n' :: joinNl (b :: t) := by
  simp [joinNl, List.intercalate, List.intersperse]

theorem joinNl_bullet_ne_nil (c : Str) (rest : List Str) :
    joinNl ((("- ").data ++ c) :: rest) ≠ [] := by
  cases rest with
  | nil => rw [joinNl_single]; simp
  | cons b t => rw [joinNl_cons_cons]; simp

/-- A configuration whose characters list is empty while every string
field is nonempty. -/
def cfgNoChars : StoryConfig :=
  { mkCfg 900 3 with characters := [] }

set_option maxRecDepth 100000 in
/-- C7 counterexample: the claim says validation fails whenever the
characters sequence is empty and that an empty characters sequence is
never silently defaulted into the prompt.  The concrete configuration
below has an empty characters list, passes validate, and its
single-shot prompt contains the silently substituted fallback
instruction line. -/
theorem validate_characters_counterexample :
    cfgNoChars.characters = [] ∧
    cfgNoChars.validate = Except.ok () ∧
    (("- Introduce 1-3 fitting characters but keep them stable once named.").data) <:+:
      build_prompt cfgNoChars := by
  refine ⟨rfl, rfl, by decide⟩

/-- C7 amended: StoryConfig.validate succeeds exactly when the five
string-typed fields are nonempty after stripping.  The characters
list is not examined by validation; an empty characters list is
silently replaced in the prompt by the fixed fallback instruction
line, while a nonempty list is rendered as its bullet lines. -/
theorem validate_spec :
    ∀ cfg : StoryConfig,
      (cfg.validate = Except.ok () ↔ validateMissing cfg = []) ∧
      (validateMissing cfg = [] ↔
        (pyStrip cfg.story_description ≠ [] ∧ pyStrip cfg.genre ≠ [] ∧
          pyStrip cfg.writing_style ≠ [] ∧ pyStrip cfg.literature_inspiration ≠ [] ∧
          pyStrip cfg.ending_type ≠ [])) ∧
      (cfg.characters = [] → characterLines cfg =
        ("- Introduce 1-3 fitting characters but keep them stable once named.").data) ∧
      (cfg.characters ≠ [] → characterLines cfg =
        joinNl (cfg.characters.map (fun c => ("- ").data ++ c))) ∧
      build_prompt cfg = dedentStrip (buildPromptTemplate cfg) := by
  intro cfg
  refine ⟨?_, ?_, ?_, ?_, rfl⟩
  · unfold StoryConfig.validate
    by_cases h : validateMissing cfg = [] <;> simp [h]
  · unfold validateMissing
    simp only [List.filterMap_cons, List.filterMap_nil]
    split_ifs <;> simp_all
  · intro h
    simp [characterLines, h, joinNl, List.intercalate, orEmpty]
  · intro h
    cases hc : cfg.characters with
    | nil => exact absurd hc h
    | cons c cs =>
      unfold characterLines orEmpty
      rw [hc]
      simp only [List.map_cons]
      rw [if_neg (joinNl_bullet_ne_nil c (cs.map (fun d => ("- ").data ++ d)))]

/-- Witness for C7 amended: a configuration with nonempty string
fields and a nonempty characters list validates and renders its
character bullet line, and dropping a required field fails
validation. -/
theorem validate_spec_witness :
    (mkCfg 900 3).validate = Except.ok () ∧
    characterLines (mkCfg 900 3) = joinNl ([("A").data].map (fun c => ("- ").data ++ c)) ∧
    ¬ validateMissing { mkCfg 900 3 with genre := (" ").data } = [] := by
  have h1 := validate_spec (mkCfg 900 3)
  have h2 := validate_spec { mkCfg 900 3 with genre := (" ").data }
  refine ⟨h1.1.mpr (h1.2.1.mpr (by decide)), ?_, ?_⟩
  · have := h1.2.2.2.1 (by decide)
    simpa [mkCfg] using this
  · intro hmiss
    have := (h2.2.1.mp hmiss).2.1
    exact this (by decide)

theorem splitNl_ne_nil (t : Str) : splitNl t ≠ [] := by
  cases t with
  | nil => simp [splitNl]
  | cons c rest =>
    unfold splitNl
    cases splitNl rest with
    | nil => simp
    | cons l ls => by_cases hc : c = '\n' <;> simp [hc]

theorem splitNl_cons (c : Char) (rest : Str) :
    splitNl (c :: rest) =
      match splitNl rest with
      | [] => [[c]]
      | l :: ls => if c = '\n' then [] :: l :: ls else (c :: l) :: ls := rfl

theorem splitNl_append_nl (l : Str) (hnl : '\n' ∉ l) (v : Str) :
    splitNl (l ++ '\n' :: v) = l :: splitNl v := by
  induction l with
  | nil =>
    show splitNl ('\n' :: v) = [] :: splitNl v
    rw [splitNl_cons]
    cases hv : splitNl v with
    | nil => exact absurd hv (splitNl_ne_nil v)
    | cons x xs => simp
  | cons c t ih =>
    have hc : c ≠ '\n' := fun h => hnl (by simp [h])
    have ht : '\n' ∉ t := fun h => hnl (List.mem_cons_of_mem c h)
    show splitNl (c :: (t ++ '\n' :: v)) = (c :: t) :: splitNl v
    rw [splitNl_cons, ih ht]
    simp [hc]

theorem mem_splitNl_sandwich (l : Str) (hnl : '\n' ∉ l) :
    ∀ (u v : Str), l ∈ (splitNl (u ++ '\n' :: (l ++ '\n' :: v))).tail := by
  intro u
  induction u with
  | nil =>
    intro v
    rw [List.nil_append]
    show l ∈ (splitNl ('\n' :: (l ++ '\n' :: v))).tail
    rw [splitNl_cons, splitNl_append_nl l hnl v]
    simp
  | cons c u ih =>
    intro v
    show l ∈ (splitNl (c :: (u ++ '\n' :: (l ++ '\n' :: v)))).tail
    rw [splitNl_cons]
    cases hrest : splitNl (u ++ '\n' :: (l ++ '\n' :: v)) with
    | nil => exact absurd hrest (splitNl_ne_nil _)
    | cons h' t' =>
      have hmem : l ∈ t' := by
        have := ih v
        rw [hrest] at this
        exact this
      by_cases hc : c = '\n' <;> simp [hc]
      · exact Or.inr hmem
      · exact hmem

theorem mem_splitNl_of_infix {t l : Str} (hnl : '\n' ∉ l)
    (h : ('\n' :: (l ++ ['\n'])) <:+: t) : l ∈ splitNl t := by
  obtain ⟨u, v, huv⟩ := h
  have : t = u ++ '\n' :: (l ++ '\n' :: v) := by
    rw [← huv]
    simp
  rw [this]
  exact List.mem_of_mem_tail (mem_splitNl_sandwich l hnl u v)

theorem lcp_prefix_left : ∀ (a b : Str), lcp a b <+: a := by
  intro a
  induction a with
  | nil => intro b; cases b <;> simp [lcp]
  | cons x xs ih =>
    intro b
    cases b with
    | nil => simp [lcp]
    | cons y ys =>
      by_cases hxy : x = y
      · rw [show lcp (x :: xs) (y :: ys) = x :: lcp xs ys by simp [lcp, hxy]]
        obtain ⟨r, hr⟩ := ih ys
        exact ⟨r, by rw [List.cons_append, hr]⟩
      · rw [show lcp (x :: xs) (y :: ys) = [] by simp [lcp, hxy]]
        exact List.nil_prefix

theorem lcp_prefix_right : ∀ (a b : Str), lcp a b <+: b := by
  intro a
  induction a with
  | nil => intro b; cases b <;> simp [lcp]
  | cons x xs ih =>
    intro b
    cases b with
    | nil => simp [lcp]
    | cons y ys =>
      by_cases hxy : x = y
      · rw [show lcp (x :: xs) (y :: ys) = x :: lcp xs ys by simp [lcp, hxy]]
        obtain ⟨r, hr⟩ := ih ys
        exact ⟨r, by rw [List.cons_append, hr, hxy]⟩
      · rw [show lcp (x :: xs) (y :: ys) = [] by simp [lcp, hxy]]
        exact List.nil_prefix

theorem foldl_lcp_pref :
    ∀ (xs : List Str) (acc : Str),
      (xs.foldl lcp acc <+: acc) ∧ ∀ x ∈ xs, xs.foldl lcp acc <+: x := by
  intro xs
  induction xs with
  | nil => intro acc; exact ⟨List.prefix_refl _, by simp⟩
  | cons y ys ih =>
    intro acc
    obtain ⟨h1, h2⟩ := ih (lcp acc y)
    rw [List.foldl_cons]
    refine ⟨h1.trans (lcp_prefix_left acc y), ?_⟩
    intro x hx
    rcases List.mem_cons.mp hx with rfl | hx
    · exact h1.trans (lcp_prefix_right acc x)
    · exact h2 x hx

theorem marginOf_prefix {ls : List Str} {l ind : Str} (hmem : l ∈ ls)
    (hind : lineIndent l = some ind) : marginOf ls <+: ind := by
  have hmem2 : ind ∈ ls.filterMap lineIndent :=
    List.mem_filterMap.mpr ⟨l, hmem, hind⟩
  unfold marginOf
  cases hfm : ls.filterMap lineIndent with
  | nil => rw [hfm] at hmem2; exact absurd hmem2 (List.not_mem_nil ind)
  | cons i is =>
    rw [hfm] at hmem2
    rcases List.mem_cons.mp hmem2 with rfl | hmem2
    · exact (foldl_lcp_pref is ind).1
    · exact (foldl_lcp_pref is i).2 ind hmem2

theorem infix_joinNl_of_mem {l : Str} {ls : List Str} (h : l ∈ ls) :
    l <:+: joinNl ls := by
  induction ls with
  | nil => exact absurd h (List.not_mem_nil l)
  | cons a t ih =>
    rcases List.mem_cons.mp h with rfl | h
    · cases t with
      | nil => rw [joinNl_single]
      | cons b t2 =>
        rw [joinNl_cons_cons]
        exact ⟨[], '\n' :: joinNl (b :: t2), by simp⟩
    · cases t with
      | nil => exact absurd h (List.not_mem_nil l)
      | cons b t2 =>
        rw [joinNl_cons_cons]
        obtain ⟨u, v, huv⟩ := ih h
        exact ⟨a ++ '\n' :: u, v, by rw [← huv]; simp⟩

theorem infix_pyDedent {t l s : Str} (hmem : l ∈ splitNl t)
    (hcontent : l.any (fun c => !(isSpaceTab c)) = true)
    (hs : s <:+: l.dropWhile isSpaceTab) : s <:+: pyDedent t := by
  have hnorm : normWsLine l = l := by
    unfold normWsLine
    rw [if_neg]
    rintro ⟨hne, hall⟩
    obtain ⟨c, hc, hcc⟩ := List.any_eq_true.mp hcontent
    have := List.all_eq_true.mp hall c hc
    simp [this] at hcc
  have hmem2 : l ∈ dedentLines t := by
    unfold dedentLines
    have := List.mem_map_of_mem normWsLine hmem
    rwa [hnorm] at this
  have hind : lineIndent l = some (l.takeWhile isSpaceTab) := by
    unfold lineIndent
    rw [if_pos hcontent]
  have hpref : marginOf (dedentLines t) <+: l.takeWhile isSpaceTab :=
    marginOf_prefix hmem2 hind
  have hprefl : marginOf (dedentLines t) <+: l :=
    hpref.trans ( List.takeWhile_prefix _)
  obtain ⟨r, hr⟩ := hpref
  have hdecomp : l.drop (marginOf (dedentLines t)).length =
      r ++ l.dropWhile isSpaceTab := by
    conv_lhs => rw [← List.takeWhile_append_dropWhile isSpaceTab l, ← hr,
      List.append_assoc]
    exact List.drop_left _ _
  have hs2 : s <:+: l.drop (marginOf (dedentLines t)).length := by
    rw [hdecomp]
    obtain ⟨u, v, huv⟩ := hs
    exact ⟨r ++ u, v, by rw [← huv]; simp⟩
  have hmm : l.drop (marginOf (dedentLines t)).length ∈
      (dedentLines t).map (fun l2 =>
        if marginOf (dedentLines t) <+: l2 then
          l2.drop (marginOf (dedentLines t)).length else l2) := by
    have hmap := List.mem_map_of_mem (fun l2 =>
      if marginOf (dedentLines t) <+: l2 then
        l2.drop (marginOf (dedentLines t)).length else l2) hmem2
    simp only [if_pos hprefl] at hmap
    exact hmap
  exact hs2.trans (infix_joinNl_of_mem hmm)

theorem dropWhile_append_keep (p : Char → Bool) (c : Char) (rest : Str)
    (hc : p c = false) :
    ∀ u : Str, ∃ u2, (u ++ c :: rest).dropWhile p = u2 ++ c :: rest := by
  intro u
  induction u with
  | nil =>
    refine ⟨[], ?_⟩
    show (c :: rest).dropWhile p = [] ++ c :: rest
    rw [List.dropWhile_cons_of_neg (by simp [hc]), List.nil_append]
  | cons x u ih =>
    by_cases hx : p x
    · obtain ⟨u2, hu2⟩ := ih
      exact ⟨u2, by rw [List.cons_append, List.dropWhile_cons_of_pos hx, hu2]⟩
    · exact ⟨x :: u, by rw [List.cons_append, List.dropWhile_cons_of_neg hx]⟩

theorem infix_trimLeft_pres {s t : Str}
    (hh : ∃ c, s.head? = some c ∧ pyIsSpace c = false) (h : s <:+: t) :
    s <:+: trimLeft t := by
  obtain ⟨c, hc1, hc2⟩ := hh
  cases s with
  | nil => simp at hc1
  | cons a s' =>
    have ha : a = c := by simpa using hc1
    subst ha
    obtain ⟨u, v, huv⟩ := h
    have ht : t = u ++ a :: (s' ++ v) := by rw [← huv]; simp
    obtain ⟨u2, hu2⟩ := dropWhile_append_keep pyIsSpace a (s' ++ v) hc2 u
    show (a :: s') <:+: t.dropWhile pyIsSpace
    rw [ht, hu2]
    exact ⟨u2, v, by simp⟩

theorem infix_trimRight_pres {s t : Str}
    (hl : ∃ d, s.getLast? = some d ∧ pyIsSpace d = false) (h : s <:+: t) :
    s <:+: trimRight t := by
  obtain ⟨d, hd1, hd2⟩ := hl
  have hrev : s.reverse.head? = some d := by
    rw [← List.getLast?_eq_head?_reverse]
    exact hd1
  have h2 : s.reverse <:+: t.reverse := List.reverse_infix.mpr h
  have h3 : s.reverse <:+: t.reverse.dropWhile pyIsSpace :=
    infix_trimLeft_pres ⟨d, hrev, hd2⟩ h2
  have h4 : s.reverse <:+: (trimRight t).reverse := by
    rw [trimRight_reverse_eq]
    exact h3
  exact List.reverse_infix.mp h4

theorem infix_pyStrip_pres {s t : Str}
    (hh : ∃ c, s.head? = some c ∧ pyIsSpace c = false)
    (hl : ∃ d, s.getLast? = some d ∧ pyIsSpace d = false) (h : s <:+: t) :
    s <:+: pyStrip t :=
  infix_trimRight_pres hl (infix_trimLeft_pres hh h)

theorem infix_dedentStrip {t l s : Str} (hmem : l ∈ splitNl t)
    (hcontent : l.any (fun c => !(isSpaceTab c)) = true)
    (hs : s <:+: l.dropWhile isSpaceTab)
    (hh : ∃ c, s.head? = some c ∧ pyIsSpace c = false)
    (hl2 : ∃ d, s.getLast? = some d ∧ pyIsSpace d = false) :
    s <:+: dedentStrip t :=
  infix_pyStrip_pres hh hl2 (infix_pyDedent hmem hcontent hs)

theorem digitChar_ne_nl (m : Nat) : Nat.digitChar m ≠ '\n' := by
  by_cases h : m < 16
  · interval_cases m <;> decide
  · have hstar : Nat.digitChar m = '*' := by
      unfold Nat.digitChar
      iterate 16 rw [if_neg (by omega)]
    rw [hstar]
    decide

theorem toDigitsCore_ne_nl (b : Nat) :
    ∀ (f n : Nat) (acc : List Char), '\n' ∉ acc → '\n' ∉ Nat.toDigitsCore b f n acc := by
  intro f
  induction f with
  | zero =>
    intro n acc hacc
    simpa [Nat.toDigitsCore] using hacc
  | succ f ih =>
    intro n acc hacc
    show '\n' ∉ (if n / b = 0 then Nat.digitChar (n % b) :: acc
      else Nat.toDigitsCore b f (n / b) (Nat.digitChar (n % b) :: acc))
    split
    · intro hmem
      rcases List.mem_cons.mp hmem with h | h
      · exact digitChar_ne_nl _ h.symm
      · exact hacc h
    · apply ih
      intro hmem
      rcases List.mem_cons.mp hmem with h | h
      · exact digitChar_ne_nl _ h.symm
      · exact hacc h

theorem nl_not_mem_natStr (n : Nat) : '\n' ∉ natStr n := by
  show '\n' ∉ (toString n).data
  have hdef : (toString n).data = Nat.toDigits 10 n := rfl
  rw [hdef]
  unfold Nat.toDigits
  exact toDigitsCore_ne_nl 10 (n + 1) n [] (by simp)

theorem nl_not_mem_intStr (i : Int) : '\n' ∉ intStr i := by
  show '\n' ∉ (toString i).data
  cases i with
  | ofNat m =>
    have hdef : (toString (Int.ofNat m)).data = (toString m).data := rfl
    rw [hdef]
    exact nl_not_mem_natStr m
  | negSucc m =>
    have hdef : (toString (Int.negSucc m)).data = '-' :: (toString (m + 1)).data := rfl
    rw [hdef]
    intro hmem
    rcases List.mem_cons.mp hmem with h | h
    · exact absurd h (by decide)
    · exact nl_not_mem_natStr (m + 1) h

/-- C10: the context block interpolated into the chapter prompt is
exactly the placeholder when the prior text strips to nothing, and
otherwise exactly the last 2000 characters of the stripped prior text
(the whole of it when shorter): the trailing-window bound is the fixed
constant 2000.  The final conjunct records that build_chapter_prompt
embeds precisely this block into its template before the dedent and
strip pipeline. -/
theorem chapterPriorContext_spec :
    (∀ prior : Str, pyStrip prior = [] →
      chapterPriorContext prior = noChaptersPlaceholder) ∧
    (∀ prior : Str, pyStrip prior ≠ [] →
      chapterPriorContext prior = takeRight 2000 (pyStrip prior)) ∧
    (∀ (cfg : StoryConfig) (i : Nat) (prior : Str) (tw : Int),
      build_chapter_prompt cfg i prior tw =
        dedentStrip (chapterTemplate cfg i (chapterPriorContext prior) tw)) := by
  refine ⟨?_, ?_, fun _ _ _ _ => rfl⟩
  · intro prior h
    unfold chapterPriorContext orEmpty
    rw [if_pos h]
    decide
  · intro prior h
    unfold chapterPriorContext orEmpty
    rw [if_neg h]

/-- Witness for C10: the empty prior text yields the placeholder, a
nonempty prior text yields its trailing window, and the chapter prompt
equation holds at a concrete configuration. -/
theorem chapterPriorContext_witness :
    chapterPriorContext [] = noChaptersPlaceholder ∧
    chapterPriorContext (("A").data) = takeRight 2000 (pyStrip (("A").data)) ∧
    build_chapter_prompt (mkCfg 900 3) 2 (("A").data) 300 =
      dedentStrip (chapterTemplate (mkCfg 900 3) 2 (chapterPriorContext (("A").data)) 300) :=
  ⟨chapterPriorContext_spec.1 [] (by decide),
    chapterPriorContext_spec.2.1 (("A").data) (by decide),
    chapterPriorContext_spec.2.2 (mkCfg 900 3) 2 (("A").data) 300⟩



/-- Left-to-right replacement of every occurrence of a pattern, with
fuel; used to compare prompts that differ only in the interpolated
chapter number. -/
def replaceAllGo (pat rep : Str) : Nat → Str → Str
  | 0, s => s
  | fuel + 1, s =>
    match s with
    | [] => []
    | c :: t =>
      if pat ≠ [] ∧ pat <+: (c :: t) then
        rep ++ replaceAllGo pat rep fuel ((c :: t).drop pat.length)
      else c :: replaceAllGo pat rep fuel t

/-- Replacement of every occurrence of a pattern, scanning once from
the left. -/
def replaceAll (s pat rep : Str) : Str := replaceAllGo pat rep s.length s

set_option maxRecDepth 40000 in
theorem final_instr_infix_chapter_prompt (cfg : StoryConfig) (i : Nat) (prior : Str)
    (tw : Int) :
    (("Do not introduce new main characters in the final chapter.").data) <:+:
      build_chapter_prompt cfg i prior tw := by
  show _ <:+: dedentStrip (chapterTemplate cfg i (chapterPriorContext prior) tw)
  apply @infix_dedentStrip _
    (("    4. Do not introduce new main characters in the final chapter.").data) _
  · apply mem_splitNl_of_infix (by decide)
    have hlit : ('\n' :: ((("    4. Do not introduce new main characters in the final chapter.").data) ++ ['\n'])) <:+:
        ((": <title>'.\n    3. Advance the narrative meaningfully with Maharashtrian settings, idioms, and customs.\n    4. Do not introduce new main characters in the final chapter.\n    5. Maintain consistent motivations, relationships, and unresolved threads from earlier chapters.\n    6. Focus only on Chapter ").data) := by
      decide
    refine hlit.trans ?_
    unfold chapterTemplate
    refine ⟨("\n    You are an accomplished English-language storyteller steeped in Maharashtrian culture.\n    Write Chapter ").data ++
      natStr i ++ (" of ").data ++ intStr cfg.chapters ++
      (" for the following story brief while preserving\n    tonal and factual consistency with earlier chapters.\n\n    Story brief:\n    - Core description: ").data ++
      cfg.story_description ++
      ("\n    - Characters to keep consistent:\n    ").data ++
      characterLines cfg ++
      ("\n    - Genre: ").data ++ cfg.genre ++
      ("\n    - Writing style: ").data ++ cfg.writing_style ++
      ("\n    - Literary inspiration: ").data ++ cfg.literature_inspiration ++
      ("\n    - Desired plot twists:\n    ").data ++
      twistLines cfg ++
      ("\n    - Ending mood/type: ").data ++ cfg.ending_type ++
      ("\n\n    Previously written chapters (keep continuity, do not repeat):\n    <context>\n    ").data ++
      chapterPriorContext prior ++
      ("\n    </context>\n\n    Requirements for this chapter:\n    1. Target about ").data ++
      intStr tw ++
      (" words (±15%).\n    2. Output must start with 'Chapter ").data ++
      natStr i,
      natStr i ++
        ("; do not summarise past chapters or foreshadow future ones explicitly.\n    ").data,
      ?_⟩
    simp only [List.append_assoc]
  · decide
  · decide
  · exact ⟨'D', by decide, by decide⟩
  · exact ⟨'.', by decide, by decide⟩

/-- C6 amended: build_chapter_prompt carries no closing instruction
conditional on whether the chapter is final.  Its only instruction
that refers to the final chapter, the fixed requirement not to
introduce new main characters in the final chapter, is embedded in the
prompt of every chapter of every configuration, final or not; the
counterexample shows concretely that final and non-final prompts
differ only in the interpolated chapter number. -/
theorem build_chapter_prompt_no_conditional_closing :
    ∀ (cfg : StoryConfig) (i : Nat) (prior : Str) (tw : Int),
      (("Do not introduce new main characters in the final chapter.").data) <:+:
        build_chapter_prompt cfg i prior tw :=
  fun cfg i prior tw => final_instr_infix_chapter_prompt cfg i prior tw

set_option maxRecDepth 250000 in
/-- C6 counterexample: the claim asserts a final-chapter resolution
instruction present exactly in the last chapter prompt and a
non-cliffhanger continuation instruction present exactly in the
earlier chapter prompts, mutually exclusive.  At a concrete
two-chapter configuration the final-chapter prompt is literally the
chapter-one prompt with the interpolated chapter number substituted,
so no instruction distinguishes final from non-final chapters, and the
single instruction mentioning the final chapter occurs in both
prompts, violating the claimed conditionality. -/
theorem chapter_prompt_counterexample :
    (mkCfg 900 2).chapters = 2 ∧
    (("Do not introduce new main characters in the final chapter.").data) <:+:
      build_chapter_prompt (mkCfg 900 2) 1 [] 450 ∧
    (("Do not introduce new main characters in the final chapter.").data) <:+:
      build_chapter_prompt (mkCfg 900 2) 2 [] 450 ∧
    replaceAll (build_chapter_prompt (mkCfg 900 2) 1 [] 450)
        (("Chapter 1").data) (("Chapter 2").data) =
      build_chapter_prompt (mkCfg 900 2) 2 [] 450 :=
  ⟨rfl, final_instr_infix_chapter_prompt (mkCfg 900 2) 1 [] 450,
    final_instr_infix_chapter_prompt (mkCfg 900 2) 2 [] 450, by decide⟩

/-- Executable prefix test used by the substring scanner. -/
def isPrefixB : Str → Str → Bool
  | x :: xs, y :: ys => if x = y then isPrefixB xs ys else false
  | p, _ => p.isEmpty

/-- Executable substring scanner, evaluation-friendly for long
concrete prompts. -/
def isInfixB (pat : Str) : Str → Bool
  | [] => pat.isEmpty
  | c :: t => isPrefixB pat (c :: t) || isInfixB pat t

theorem isPrefixB_append (l r : Str) : isPrefixB l (l ++ r) = true := by
  induction l with
  | nil => rfl
  | cons a as ih =>
    show (if a = a then isPrefixB as (as ++ r) else false) = true
    rw [if_pos rfl, ih]

theorem isInfixB_of_infix {pat s : Str} (h : pat <:+: s) : isInfixB pat s = true := by
  obtain ⟨u, v, huv⟩ := h
  subst huv
  induction u with
  | nil =>
    rw [List.nil_append]
    cases pat with
    | nil =>
      cases v with
      | nil => rfl
      | cons c t => simp [isInfixB, isPrefixB]
    | cons p pt =>
      rw [List.cons_append]
      show (isPrefixB (p :: pt) (p :: (pt ++ v)) || _) = true
      rw [show p :: (pt ++ v) = (p :: pt) ++ v from rfl, isPrefixB_append]
      simp
  | cons c u ih =>
    rw [List.cons_append]
    show (isPrefixB pat (c :: (u ++ pat ++ v)) || isInfixB pat (u ++ pat ++ v)) = true
    rw [ih]
    simp

theorem isSpaceTab_to_pyIsSpace {c : Char} (h : isSpaceTab c = true) :
    pyIsSpace c = true := by
  simp only [isSpaceTab, Bool.or_eq_true, beq_iff_eq] at h
  rcases h with rfl | rfl <;> decide

theorem not_isSpaceTab_of_not_ws {c : Char} (h : pyIsSpace c = false) :
    isSpaceTab c = false := by
  cases hst : isSpaceTab c with
  | false => rfl
  | true => rw [isSpaceTab_to_pyIsSpace hst] at h; exact absurd h (by simp)

set_option maxRecDepth 40000 in
theorem sanitized_infix_translation (lang note san : Str)
    (hnl : '\n' ∉ san)
    (hh : ∃ c, san.head? = some c ∧ pyIsSpace c = false)
    (hl2 : ∃ d, san.getLast? = some d ∧ pyIsSpace d = false) :
    san <:+: dedentStrip (translationTemplate lang note san) := by
  obtain ⟨c, hc1, hc2⟩ := hh
  cases san with
  | nil => simp at hc1
  | cons a s' =>
    have hac : a = c := by simpa using hc1
    subst hac
    apply @infix_dedentStrip _ (("    ").data ++ (a :: s')) _
    · apply mem_splitNl_of_infix
      · intro hmem
        rcases List.mem_append.mp hmem with h | h
        · exact absurd h (by decide)
        · exact hnl h
      · show ('\n' :: ((("    ").data ++ (a :: s')) ++ ['\n'])) <:+:
          translationTemplate lang note (a :: s')
        unfold translationTemplate
        rw [(by decide : (" readers.\n\n    Output rules:\n    1. Return only the translated story text, no commentary, code fences, or explanations.\n    2. Mirror the original formatting exactly (chapter headings, blank lines, italics markers, etc.).\n    3. Maintain emotional intensity and descriptive richness without introducing new ideas.\n\n    Story chunk to translate:\n    <story>\n    ").data =
          (" readers.\n\n    Output rules:\n    1. Return only the translated story text, no commentary, code fences, or explanations.\n    2. Mirror the original formatting exactly (chapter headings, blank lines, italics markers, etc.).\n    3. Maintain emotional intensity and descriptive richness without introducing new ideas.\n\n    Story chunk to translate:\n    <story>").data ++
            ('\n' :: ("    ").data)),
          (by decide : ("\n    </story>\n    ").data = '\n' :: ("    </story>\n    ").data)]
        refine ⟨("\n    You are an expert literary translator. Translate the provided story chunk into ").data ++
          lang ++
          ("\n    while preserving realism, tone, pacing, and structure. ").data ++
          note ++
          ("\n    Do not summarize, omit, or embellish any details. Keep chapter headings, paragraph breaks, and character\n    names aligned with their roles, translating them only when culturally appropriate for ").data ++
          lang ++
          (" readers.\n\n    Output rules:\n    1. Return only the translated story text, no commentary, code fences, or explanations.\n    2. Mirror the original formatting exactly (chapter headings, blank lines, italics markers, etc.).\n    3. Maintain emotional intensity and descriptive richness without introducing new ideas.\n\n    Story chunk to translate:\n    <story>").data,
          ("    </story>\n    ").data, ?_⟩
        simp [List.append_assoc]
    · rw [List.any_append]
      simp [List.any_cons, not_isSpaceTab_of_not_ws hc2]
    · rw [List.dropWhile_append]
      have hemp : ((("    ").data).dropWhile isSpaceTab).isEmpty = true := by decide
      rw [hemp]
      simp only [if_true]
      rw [List.dropWhile_cons_of_neg (by simp [not_isSpaceTab_of_not_ws hc2])]
    · exact ⟨a, rfl, hc2⟩
    · exact hl2

set_option maxRecDepth 40000 in
theorem note_infix_translation (lang san : Str) (i n : Int) :
    chunkNote (some i) (some n) <:+:
      dedentStrip (translationTemplate lang (chunkNote (some i) (some n)) san) := by
  have hTnote : chunkNote (some i) (some n) =
      ("This text is chunk ").data ++ intStr i ++ (" of ").data ++ intStr n ++
        (". Preserve continuity with prior chunks but do not repeat or summarize previous content. Do not add opening or closing remarks—just translate this chunk exactly.").data :=
    rfl
  have hnlnote : '\n' ∉ chunkNote (some i) (some n) := by
    rw [hTnote]
    intro hmem
    rcases List.mem_append.mp hmem with h | h
    · rcases List.mem_append.mp h with h | h
      · rcases List.mem_append.mp h with h | h
        · rcases List.mem_append.mp h with h | h
          · exact absurd h (by decide)
          · exact nl_not_mem_intStr i h
        · exact absurd h (by decide)
      · exact nl_not_mem_intStr n h
    · exact absurd h (by decide)
  apply @infix_dedentStrip _
    ((("    while preserving realism, tone, pacing, and structure. ").data) ++
      chunkNote (some i) (some n)) _
  · apply mem_splitNl_of_infix
    · intro hmem
      rcases List.mem_append.mp hmem with h | h
      · exact absurd h (by decide)
      · exact hnlnote h
    · show ('\n' :: ((("    while preserving realism, tone, pacing, and structure. ").data ++
        chunkNote (some i) (some n)) ++ ['\n'])) <:+:
          translationTemplate lang (chunkNote (some i) (some n)) san
      unfold translationTemplate
      rw [(by decide : ("\n    while preserving realism, tone, pacing, and structure. ").data =
          '\n' :: ("    while preserving realism, tone, pacing, and structure. ").data),
        (by decide : ("\n    Do not summarize, omit, or embellish any details. Keep chapter headings, paragraph breaks, and character\n    names aligned with their roles, translating them only when culturally appropriate for ").data =
          '\n' :: ("    Do not summarize, omit, or embellish any details. Keep chapter headings, paragraph breaks, and character\n    names aligned with their roles, translating them only when culturally appropriate for ").data)]
      refine ⟨("\n    You are an expert literary translator. Translate the provided story chunk into ").data ++
        lang,
        ("    Do not summarize, omit, or embellish any details. Keep chapter headings, paragraph breaks, and character\n    names aligned with their roles, translating them only when culturally appropriate for ").data ++
          lang ++
          (" readers.\n\n    Output rules:\n    1. Return only the translated story text, no commentary, code fences, or explanations.\n    2. Mirror the original formatting exactly (chapter headings, blank lines, italics markers, etc.).\n    3. Maintain emotional intensity and descriptive richness without introducing new ideas.\n\n    Story chunk to translate:\n    <story>\n    ").data ++
          san ++ ("\n    </story>\n    ").data, ?_⟩
      simp [List.append_assoc]
  · rw [List.any_append]
    have hw : ((("    while preserving realism, tone, pacing, and structure. ").data).any
        (fun c => !(isSpaceTab c))) = true := by decide
    rw [hw]
    simp
  · rw [List.dropWhile_append]
    have hne : ((("    while preserving realism, tone, pacing, and structure. ").data).dropWhile
        isSpaceTab).isEmpty = false := by decide
    rw [hne]
    simp only [Bool.false_eq_true, if_false]
    exact ⟨(("    while preserving realism, tone, pacing, and structure. ").data).dropWhile
      isSpaceTab, [], by simp⟩
  · refine ⟨'T', ?_, by decide⟩
    have hcons : chunkNote (some i) (some n) = 'T' ::
        (("his text is chunk ").data ++ intStr i ++ (" of ").data ++ intStr n ++
          (". Preserve continuity with prior chunks but do not repeat or summarize previous content. Do not add opening or closing remarks—just translate this chunk exactly.").data) := by
      rw [hTnote,
        (by decide : ("This text is chunk ").data = 'T' :: ("his text is chunk ").data)]
      simp
    rw [hcons]
    rfl
  · refine ⟨'.', ?_, by decide⟩
    rw [hTnote, List.getLast?_append_of_ne_nil _ (by decide)]
    decide

set_option maxRecDepth 250000 in
/-- C9 counterexample: the claim says the returned prompt embeds the
trimmed text.  For the concrete two-line input below, whose second
line is indented, the trimmed text is unchanged by stripping, the
builder succeeds, yet the trimmed text is not a substring of the
returned prompt: the dedent pass of the template pipeline removes the
common four-space indentation from every line, including the lines of
the interpolated story text. -/
theorem build_translation_prompt_counterexample :
    pyStrip (("a\n    b").data) = ("a\n    b").data ∧
    build_translation_prompt (("a\n    b").data) (("Marathi").data) none none =
      Except.ok (dedentStrip (translationTemplate (("Marathi").data) []
        (pyStrip (("a\n    b").data)))) ∧
    ¬ (("a\n    b").data) <:+: dedentStrip (translationTemplate (("Marathi").data) []
        (pyStrip (("a\n    b").data))) := by
  refine ⟨by decide, rfl, fun h => ?_⟩
  have htrue := isInfixB_of_infix h
  have hfalse : isInfixB (("a\n    b").data)
      (dedentStrip (translationTemplate (("Marathi").data) []
        (pyStrip (("a\n    b").data)))) = false := by decide
  rw [hfalse] at htrue
  exact absurd htrue (by decide)

/-- C9 amended: build_translation_prompt raises the input error if and
only if the text is empty after stripping, with no other effect;
otherwise it returns the dedented and stripped template around the
stripped text.  The stripped text is embedded up to the removal of the
common template indentation: in particular any single-line stripped
text appears verbatim in the returned prompt, and when both chunk
index and chunk count are supplied the continuity note carrying the
two values appears verbatim in the returned prompt. -/
theorem build_translation_prompt_spec :
    ∀ (text lang : Str) (ci cn : Option Int),
      (build_translation_prompt text lang ci cn =
          Except.error (("No story text supplied for translation.").data) ↔
        pyStrip text = []) ∧
      (pyStrip text ≠ [] →
        build_translation_prompt text lang ci cn =
          Except.ok (dedentStrip (translationTemplate lang (chunkNote ci cn)
            (pyStrip text)))) ∧
      (pyStrip text ≠ [] → '\n' ∉ pyStrip text →
        pyStrip text <:+: dedentStrip (translationTemplate lang (chunkNote ci cn)
          (pyStrip text))) ∧
      (∀ i n : Int,
        chunkNote (some i) (some n) <:+:
          dedentStrip (translationTemplate lang (chunkNote (some i) (some n))
            (pyStrip text))) := by
  intro text lang ci cn
  refine ⟨?_, ?_, ?_, ?_⟩
  · unfold build_translation_prompt
    by_cases h : pyStrip text = [] <;> simp [h]
  · intro h
    unfold build_translation_prompt
    rw [if_neg h]
  · intro h hnl
    apply sanitized_infix_translation
    · exact hnl
    · cases hsan : pyStrip text with
      | nil => exact absurd hsan h
      | cons a t => exact ⟨a, rfl, pyStrip_head_not text hsan⟩
    · cases hrev : (pyStrip text).reverse with
      | nil => exact absurd (by simpa using congrArg List.reverse hrev) h
      | cons d r =>
        refine ⟨d, ?_, pyStrip_last_not text hrev⟩
        rw [List.getLast?_eq_head?_reverse, hrev]
        rfl
  · intro i n
    exact note_infix_translation lang (pyStrip text) i n

/-- Witness for C9 amended: a whitespace-only text is rejected, and a
concrete short text yields a prompt embedding the text verbatim and
the continuity note tagged 1 of 2. -/
theorem build_translation_prompt_spec_witness :
    (build_translation_prompt (("  ").data) (("Marathi").data) none none =
      Except.error (("No story text supplied for translation.").data)) ∧
    build_translation_prompt (("hi").data) (("Marathi").data) (some 1) (some 2) =
      Except.ok (dedentStrip (translationTemplate (("Marathi").data)
        (chunkNote (some 1) (some 2)) (pyStrip (("hi").data)))) ∧
    pyStrip (("hi").data) <:+: dedentStrip (translationTemplate (("Marathi").data)
      (chunkNote (some 1) (some 2)) (pyStrip (("hi").data))) ∧
    chunkNote (some 1) (some 2) <:+: dedentStrip (translationTemplate (("Marathi").data)
      (chunkNote (some 1) (some 2)) (pyStrip (("hi").data))) := by
  have h1 := build_translation_prompt_spec (("  ").data) (("Marathi").data) none none
  have h2 := build_translation_prompt_spec (("hi").data) (("Marathi").data)
    (some 1) (some 2)
  exact ⟨h1.1.mpr (by decide), h2.2.1 (by decide), h2.2.2.1 (by decide) (by decide),
    h2.2.2.2 1 2⟩

theorem prefix_of_isPrefixB : ∀ {a b : Str}, isPrefixB a b = true → a <+: b := by
  intro a
  induction a with
  | nil => intro b _; exact List.nil_prefix
  | cons x xs ih =>
    intro b h
    cases b with
    | nil => simp [isPrefixB] at h
    | cons y ys =>
      by_cases hxy : x = y
      · subst hxy
        rw [show isPrefixB (x :: xs) (x :: ys) =
          isPrefixB xs ys by simp [isPrefixB]] at h
        obtain ⟨r, hr⟩ := ih h
        exact ⟨r, by rw [List.cons_append, hr]⟩
      · rw [show isPrefixB (x :: xs) (y :: ys) = false by simp [isPrefixB, hxy]] at h
        exact absurd h (by simp)

theorem infix_of_isInfixB : ∀ {pat s : Str}, isInfixB pat s = true → pat <:+: s := by
  intro pat s
  induction s with
  | nil =>
    intro h
    have hnil : pat = [] := by
      cases pat with
      | nil => rfl
      | cons a t => simp [isInfixB, List.isEmpty] at h
    subst hnil
    exact ⟨[], [], rfl⟩
  | cons c t ih =>
    intro h
    rcases Bool.or_eq_true_iff.mp h with h | h
    · exact List.IsPrefix.isInfix (prefix_of_isPrefixB h)
    · obtain ⟨u, v, huv⟩ := ih h
      exact ⟨c :: u, v, by rw [← huv]; rfl⟩

theorem genGo_spec (resp : Nat → Str) (cfg : StoryConfig) (target : Int) :
    ∀ (n : Nat) (acc : List Str),
      (genGo resp cfg target n acc).1 =
        acc ++ (List.range n).map (fun k => pyStrip (resp (acc.length + k))) ∧
      (genGo resp cfg target n acc).2 =
        (List.range n).map (fun k =>
          build_chapter_prompt cfg (acc.length + k + 1)
            (joinBlank (acc ++
              (List.range k).map (fun j => pyStrip (resp (acc.length + j)))))
            target) := by
  intro n
  induction n with
  | zero => intro acc; simp [genGo]
  | succ n ih =>
    intro acc
    obtain ⟨ih1, ih2⟩ := ih (acc ++ [pyStrip (resp acc.length)])
    have hlen : (acc ++ [pyStrip (resp acc.length)]).length = acc.length + 1 := by
      simp
    have hstep1 : (genGo resp cfg target (n + 1) acc).1 =
        (genGo resp cfg target n (acc ++ [pyStrip (resp acc.length)])).1 := rfl
    have hstep2 : (genGo resp cfg target (n + 1) acc).2 =
        build_chapter_prompt cfg (acc.length + 1) (joinBlank acc) target ::
          (genGo resp cfg target n (acc ++ [pyStrip (resp acc.length)])).2 := rfl
    have hjoin : ∀ k : Nat,
        (acc ++ [pyStrip (resp acc.length)]) ++
          (List.range k).map (fun j => pyStrip (resp (acc.length + 1 + j))) =
        acc ++ (List.range (k + 1)).map (fun j => pyStrip (resp (acc.length + j))) := by
      intro k
      rw [List.range_succ_eq_map, List.map_cons, List.map_map]
      have hfun : ((fun j => pyStrip (resp (acc.length + j))) ∘ Nat.succ) =
          (fun j => pyStrip (resp (acc.length + 1 + j))) := by
        funext j
        show pyStrip (resp (acc.length + (j + 1))) = pyStrip (resp (acc.length + 1 + j))
        have harith : acc.length + (j + 1) = acc.length + 1 + j := by omega
        rw [harith]
      rw [hfun]
      simp [List.append_assoc]
    constructor
    · rw [hstep1, ih1, hlen, hjoin n]
    · rw [hstep2, ih2, hlen]
      simp only [List.range_succ_eq_map, List.map_cons, List.map_map, List.range_zero,
        List.map_nil, List.append_nil, Nat.add_zero]
      have hfun2 : ((fun k => build_chapter_prompt cfg (acc.length + k + 1)
          (joinBlank (acc ++
            (List.range k).map (fun j => pyStrip (resp (acc.length + j)))))
          target) ∘ Nat.succ) =
          (fun k => build_chapter_prompt cfg (acc.length + 1 + k + 1)
            (joinBlank ((acc ++ [pyStrip (resp acc.length)]) ++
              (List.range k).map (fun j => pyStrip (resp (acc.length + 1 + j)))))
            target) := by
        funext k
        simp only [Function.comp_apply, Nat.succ_eq_add_one]
        rw [← hjoin k]
        have harith : acc.length + (k + 1) + 1 = acc.length + 1 + k + 1 := by omega
        rw [harith]
      rw [hfun2]

theorem chapterPriorContext_of_ne {p : Str} (h : pyStrip p ≠ []) :
    chapterPriorContext p = takeRight 2000 (pyStrip p) := by
  unfold chapterPriorContext orEmpty
  rw [if_neg h]

/-- C1 amended: for a configuration with at least one chapter,
generate_story_in_chapters issues exactly one generation call per
chapter in strict order: the trace of prompts is the chapter-indexed
map in which call k + 1 receives the prompt built from the
configuration, chapter number k + 1, the blank-line join of the
stripped results of the earlier calls as prior text, and the
per-chapter word target of the maximum of 200 and the word length
divided by the chapter count; the returned story is the blank-line
join of the stripped chapter responses.  The context block
interpolated into a call whose prior text is nonempty after stripping
is the trailing 2000-character excerpt of that prior text, never the
placeholder; the final prompt text can still carry the placeholder
wording when the responses themselves contain it, as the
counterexample shows. -/
theorem generate_story_in_chapters_spec (resp : Nat → Str) (cfg : StoryConfig)
    (hch : 1 ≤ cfg.chapters) :
    (generate_story_in_chapters resp cfg).2 =
      (List.range cfg.chapters.toNat).map (fun k =>
        build_chapter_prompt cfg (k + 1)
          (joinBlank ((List.range k).map (fun j => pyStrip (resp j))))
          (max 200 (Int.fdiv cfg.word_length cfg.chapters))) ∧
    (generate_story_in_chapters resp cfg).1 =
      joinBlank ((List.range cfg.chapters.toNat).map (fun k => pyStrip (resp k))) ∧
    (∀ k : Nat,
      pyStrip (joinBlank ((List.range k).map (fun j => pyStrip (resp j)))) ≠ [] →
      chapterPriorContext (joinBlank ((List.range k).map (fun j => pyStrip (resp j)))) =
        takeRight 2000
          (pyStrip (joinBlank ((List.range k).map (fun j => pyStrip (resp j)))))) := by
  have hmax : max 1 cfg.chapters = cfg.chapters := max_eq_right hch
  obtain ⟨h1, h2⟩ := genGo_spec resp cfg
    (max 200 (Int.fdiv cfg.word_length (max 1 cfg.chapters))) cfg.chapters.toNat []
  refine ⟨?_, ?_, fun k hk => chapterPriorContext_of_ne hk⟩
  · show (genGo resp cfg (max 200 (Int.fdiv cfg.word_length (max 1 cfg.chapters)))
      cfg.chapters.toNat []).2 = _
    rw [h2]
    simp only [List.length_nil, List.nil_append, Nat.zero_add, hmax]
  · show joinBlank (genGo resp cfg
      (max 200 (Int.fdiv cfg.word_length (max 1 cfg.chapters))) cfg.chapters.toNat []).1 = _
    rw [h1]
    simp only [List.length_nil, List.nil_append, Nat.zero_add]

/-- Client responses for the placeholder counterexample: the first
chapter response is exactly the placeholder sentence. -/
def respCX : Nat → Str := fun k => if k = 0 then noChaptersPlaceholder else ("B").data

/-- Client responses for the three-chapter scenario. -/
def respABC : Nat → Str := fun k =>
  if k = 0 then ("A").data else if k = 1 then ("B").data else ("C").data

set_option maxRecDepth 250000 in
/-- C1 counterexample: the claim states that the prompt of a chapter
whose prior text is nonempty never contains the literal placeholder.
When the first client response is itself the placeholder sentence, the
prior text of the second call is nonempty and yet the second prompt
contains the placeholder verbatim, because the accumulated response is
embedded as the context excerpt. -/
theorem generate_story_in_chapters_counterexample :
    pyStrip (joinBlank [pyStrip (respCX 0)]) ≠ [] ∧
    (generate_story_in_chapters respCX (mkCfg 900 2)).2.getD 1 [] =
      build_chapter_prompt (mkCfg 900 2) 2 (joinBlank [pyStrip (respCX 0)])
        (max 200 (Int.fdiv (mkCfg 900 2).word_length (max 1 (mkCfg 900 2).chapters))) ∧
    noChaptersPlaceholder <:+:
      (generate_story_in_chapters respCX (mkCfg 900 2)).2.getD 1 [] := by
  refine ⟨by decide, rfl, ?_⟩
  apply infix_of_isInfixB
  decide

set_option maxRecDepth 40000 in
/-- Witness for C1 amended: with three successful responses A, B, C
for a three-chapter configuration the returned story is the blank-line
join of the three texts, the prompt trace is the chapter-indexed map,
and the context block of the second call is the trailing excerpt of
the accumulated first chapter. -/
theorem generate_story_in_chapters_spec_witness :
    (generate_story_in_chapters respABC (mkCfg 900 3)).1 = ("A\n\nB\n\nC").data ∧
    (generate_story_in_chapters respABC (mkCfg 900 3)).2 =
      (List.range (mkCfg 900 3).chapters.toNat).map (fun k =>
        build_chapter_prompt (mkCfg 900 3) (k + 1)
          (joinBlank ((List.range k).map (fun j => pyStrip (respABC j))))
          (max 200 (Int.fdiv (mkCfg 900 3).word_length (mkCfg 900 3).chapters))) ∧
    chapterPriorContext (joinBlank ((List.range 1).map (fun j => pyStrip (respABC j)))) =
      takeRight 2000
        (pyStrip (joinBlank ((List.range 1).map (fun j => pyStrip (respABC j))))) := by
  have h := generate_story_in_chapters_spec respABC (mkCfg 900 3) (by decide)
  exact ⟨h.2.1.trans (by decide), h.1, h.2.2 1 (by decide)⟩
